import Mathlib

/-!
# Payment order reconciliation core of `dramini-api`, shallowly embedded

This file embeds the payment subsystem of the repository in Lean:

* `src/src/services/payment.ts` — `PaymentService` (`createPaymentOrder`,
  `createStripeCheckoutSession`, `processPaymentSuccess`,
  `verifyStripePayment`);
* `src/src/routes/webhooks.ts` — the Stripe and PayPal webhook route
  handlers;
* `src/src/main.ts` — the `POST /api/v1/payment/verify/stripe` handler;
* the tier table `PAYMENT_TIERS` / `getTierConfig` as defined in
  `src/src/main.ts.backup.20250922_150520` (identical to the
  `config/payment-tiers` module imported by `payment.ts`).

The Prisma store is modelled as explicit state (`LedgerDb`): lists of
payment-order rows, user-coin rows and coin-transaction rows, in insertion
order.  `prisma.$transaction` is modelled as an all-or-nothing block: on any
failure inside it the returned state is the input state (rollback).  Storage
faults are injected through explicit `TxnFaults` flags, one per write of the
credit transaction.  External collaborators (Stripe/PayPal SDK calls, the
CMS package catalog, fastify's JSON body parsing) enter as function
parameters or as the small JSON model at the end of the file.

Fields of the Prisma rows that no claim touches (`metadata`, `createdAt`,
`updatedAt`, `totalEarned`/`totalSpent` on `user_coins`) are omitted from
the row structures.
-/

namespace Dramini

/-- A purchasable coin tier, `PaymentTier` of `config/payment-tiers`
(shown in full in `main.ts.backup.20250922_150520`). -/
structure PaymentTier where
  key : String
  name : String
  coins : Int
  bonusCoins : Int
  priceCents : Int
  currency : String
  isFirstTime : Bool := false
deriving DecidableEq, Repr

/-- A `payment_order` row as created and mutated by `PaymentService`. -/
structure PaymentOrder where
  id : String
  userId : String
  tierKey : String
  provider : String
  providerOrderId : Option String := none
  providerEventId : Option String := none
  amountCents : Int
  coins : Int
  status : String
  completedAt : Option Nat := none
deriving DecidableEq, Repr

/-- A `user_coins` row (`userId` is unique in the schema,
`user_coins_userId_key`). -/
structure UserCoins where
  userId : String
  balance : Int
deriving DecidableEq, Repr

/-- A `coin_transaction` row, as inserted by `processPaymentSuccess`. -/
structure CoinTransaction where
  userId : String
  orderId : String
  coins : Int
  transactionType : String
  description : String
deriving DecidableEq, Repr

/-- The persistent store visible to the payment service: the three tables,
each in insertion order. -/
structure LedgerDb where
  orders : List PaymentOrder
  userCoins : List UserCoins
  transactions : List CoinTransaction
deriving DecidableEq, Repr

/-- The empty store. -/
def LedgerDb.empty : LedgerDb := ⟨[], [], []⟩

/-- Error taxonomy of the payment service, as thrown by the TypeScript
code.  `storage` stands for a storage/provider fault surfaced out of a
Prisma call (the spec's `TransientError`); `recordNotFound` is Prisma's
"record to update not found" error from `tx.paymentOrder.update`. -/
inductive ServiceError where
  | invalidTier
  | orderNotFound
  | recordNotFound
  | storage
  | paymentNotCompleted
  | sessionUserMismatch
deriving DecidableEq, Repr

/-- Result of `processPaymentSuccess` (the fields the callers read). -/
structure ProcessResult where
  alreadyProcessed : Bool
  order : PaymentOrder
deriving DecidableEq, Repr

/-! ## Tier whitelist (`PAYMENT_TIERS`, `getTierConfig`, `validateTierKey`) -/

/-- The hardcoded tier table `PAYMENT_TIERS`. -/
def PAYMENT_TIERS : List PaymentTier :=
  [ ⟨"coins_100", "Starter Pack", 100, 0, 199, "USD", false⟩,
    ⟨"coins_300", "Popular Choice", 300, 50, 499, "USD", false⟩,
    ⟨"coins_500", "Value Pack", 500, 100, 799, "USD", false⟩,
    ⟨"coins_1000", "Premium Pack", 1000, 300, 1299, "USD", false⟩,
    ⟨"coins_2000", "Ultimate Pack", 2000, 800, 1999, "USD", false⟩,
    ⟨"first_time_300", "First Time Special", 300, 100, 299, "USD", true⟩ ]

/-- `getTierConfig(tierKey)`: lookup in the hardcoded tier table. -/
def getTierConfig (tierKey : String) : Option PaymentTier :=
  PAYMENT_TIERS.find? (fun t => t.key == tierKey)

/-- `validateTierKey(tierKey)`: membership in the hardcoded tier table. -/
def validateTierKey (tierKey : String) : Bool :=
  (getTierConfig tierKey).isSome

/-! ## Generic first-match update (Prisma `update` / `upsert` on a keyed row) -/

/-- Update the first element satisfying `p`; returns the updated element and
the updated list, or `none` when no element matches (Prisma's `update`
throws in that case). -/
def updateFirst (p : α → Bool) (f : α → α) : List α → Option (α × List α)
  | [] => none
  | x :: xs =>
    if p x then some (f x, f x :: xs)
    else
      match updateFirst p f xs with
      | some (u, ys) => some (u, x :: ys)
      | none => none

/-! ## Order creation (`createPaymentOrder`, `createStripeCheckoutSession`) -/

/-- `PaymentService.createPaymentOrder`: insert one pending `payment_order`
row with `coins = tier.coins + tier.bonusCoins` and
`amountCents = tier.priceCents`.  `newId` stands for the id Prisma
generates for the row. -/
def createPaymentOrder (newId userId tierKey provider : String)
    (tierConfig : PaymentTier) (providerOrderId : Option String)
    (db : LedgerDb) : PaymentOrder × LedgerDb :=
  let order : PaymentOrder :=
    { id := newId
      userId := userId
      tierKey := tierKey
      provider := provider
      providerOrderId := providerOrderId
      providerEventId := none
      amountCents := tierConfig.priceCents
      coins := tierConfig.coins + tierConfig.bonusCoins
      status := "pending"
      completedAt := none }
  (order, { db with orders := db.orders ++ [order] })

/-- `prisma.paymentOrder.update({where:{id}, data:{providerOrderId}})`, as
issued after the provider checkout object exists.  When no row has the id
the store is left unchanged. -/
def attachProviderOrderId (db : LedgerDb) (orderId providerOrderId : String) :
    LedgerDb :=
  match updateFirst (fun o => o.id == orderId)
      (fun o => { o with providerOrderId := some providerOrderId }) db.orders with
  | some (_, orders) => { db with orders := orders }
  | none => db

/-- Tier resolution of `createStripeCheckoutSession`: the hardcoded table
first, then the CMS package catalog (`getCmsPackageConfig`, an external
HTTP call modelled by the function `cms`). -/
def resolveTier (cms : String → Option PaymentTier) (tierKey : String) :
    Option PaymentTier :=
  match getTierConfig tierKey with
  | some cfg => some cfg
  | none => cms tierKey

/-- `PaymentService.createStripeCheckoutSession`: resolve the tier (throw
`Invalid tier key` when both lookups miss, before any row is written),
insert the pending order, create the Stripe session (external; its id is
the parameter `sessionId`), then attach the session id as
`providerOrderId`.  Returns `(sessionId, orderId)`. -/
def createStripeCheckoutSession (cms : String → Option PaymentTier)
    (newOrderId sessionId : String) (tierKey userId : String)
    (db : LedgerDb) : Except ServiceError (String × String) × LedgerDb :=
  match resolveTier cms tierKey with
  | none => (.error .invalidTier, db)
  | some tierConfig =>
    let (order, db1) := createPaymentOrder newOrderId userId tierKey "stripe"
      tierConfig none db
    let db2 := attachProviderOrderId db1 order.id sessionId
    (.ok (sessionId, order.id), db2)

/-! ## Completion (`processPaymentSuccess`) -/

/-- The idempotency lookup of `processPaymentSuccess`:
`prisma.paymentOrder.findFirst({where:{OR:[{id: orderId},
{providerEventId}]}})` — first row, in table order, whose id is `orderId`
or whose `providerEventId` equals the supplied event id. -/
def lookupOrder (db : LedgerDb) (orderId providerEventId : String) :
    Option PaymentOrder :=
  db.orders.find? (fun o => o.id == orderId || o.providerEventId == some providerEventId)

/-- Outcome of the pre-transaction phase of `processPaymentSuccess`: no
matching order, an already-completed order (idempotency short-circuit), or
clearance to enter the credit transaction. -/
inductive Decision where
  | notFound
  | already (order : PaymentOrder)
  | proceed
deriving DecidableEq, Repr

/-- The pre-transaction phase: the lookup plus the
`status === 'completed'` short-circuit check. -/
def checkPhase (db : LedgerDb) (orderId providerEventId : String) : Decision :=
  match lookupOrder db orderId providerEventId with
  | none => .notFound
  | some o => if o.status == "completed" then .already o else .proceed

/-- Storage-fault injection points for the three writes inside the
`prisma.$transaction` block of `processPaymentSuccess`. -/
structure TxnFaults where
  failUpdate : Bool
  failUpsert : Bool
  failCreate : Bool
deriving DecidableEq, Repr

/-- No injected faults. -/
def TxnFaults.none : TxnFaults := ⟨false, false, false⟩

/-- Whether some write inside the transaction is set to fail. -/
def TxnFaults.any (f : TxnFaults) : Bool :=
  f.failUpdate || f.failUpsert || f.failCreate

/-- The completed version of an order row, as written by
`tx.paymentOrder.update` (`status`, `providerEventId`, `completedAt`). -/
def completeOrder (now : Nat) (providerEventId : String) (o : PaymentOrder) :
    PaymentOrder :=
  { o with
    status := "completed"
    providerEventId := some providerEventId
    completedAt := some now }

/-- `tx.userCoins.upsert({where:{userId}, update:{balance:{increment}},
create:{userId, balance}})`: increment the user's row, creating it at
`coins` when absent. -/
def upsertUserCoins : List UserCoins → String → Int → List UserCoins
  | [], userId, coins => [⟨userId, coins⟩]
  | r :: rs, userId, coins =>
    if r.userId == userId then { r with balance := r.balance + coins } :: rs
    else r :: upsertUserCoins rs userId coins

/-- The `coin_transaction` row inserted by `tx.coinTransaction.create`. -/
def mkPurchaseTransaction (o : PaymentOrder) : CoinTransaction :=
  { userId := o.userId
    orderId := o.id
    coins := o.coins
    transactionType := "purchase"
    description := "Purchase: " ++ o.tierKey }

/-- The body of the `prisma.$transaction` block: mark the order with the
*supplied* `orderId` completed, upsert the owner's balance, insert one
purchase transaction.  A `none` result is a failure of one of the three
writes; the caller then keeps the pre-transaction state (rollback). -/
def runCreditTxn (faults : TxnFaults) (now : Nat)
    (orderId providerEventId : String) (db : LedgerDb) :
    Except ServiceError (PaymentOrder × LedgerDb) :=
  if faults.failUpdate then .error .storage
  else
    match updateFirst (fun o => o.id == orderId)
        (completeOrder now providerEventId) db.orders with
    | none => .error .recordNotFound
    | some (updatedOrder, orders') =>
      if faults.failUpsert then .error .storage
      else
        let coins' := upsertUserCoins db.userCoins updatedOrder.userId updatedOrder.coins
        if faults.failCreate then .error .storage
        else
          .ok (updatedOrder,
            { orders := orders'
              userCoins := coins'
              transactions := db.transactions ++ [mkPurchaseTransaction updatedOrder] })

/-- `PaymentService.processPaymentSuccess(orderId, providerEventId,
provider)`: idempotency lookup and short-circuit, then the atomic credit
transaction.  Every error propagates to the caller (the service's `catch`
rethrows); on error the store is the unchanged input store. -/
def processPaymentSuccess (faults : TxnFaults) (now : Nat)
    (orderId providerEventId provider : String) (db : LedgerDb) :
    Except ServiceError ProcessResult × LedgerDb :=
  match checkPhase db orderId providerEventId with
  | .notFound => (.error .orderNotFound, db)
  | .already o => (.ok ⟨true, o⟩, db)
  | .proceed =>
    match runCreditTxn faults now orderId providerEventId db with
    | .ok (o, db') => (.ok ⟨false, o⟩, db')
    | .error e => (.error e, db)

/-- The store after a successful credit transaction on a pending order `P`
listed between `l₁` and `l₂` (the shape established by the lemmas below). -/
def creditSuccessDb (now : Nat) (e : String) (P : PaymentOrder)
    (l₁ l₂ : List PaymentOrder) (db : LedgerDb) : LedgerDb :=
  { orders := l₁ ++ completeOrder now e P :: l₂
    userCoins := upsertUserCoins db.userCoins P.userId P.coins
    transactions := db.transactions ++ [mkPurchaseTransaction (completeOrder now e P)] }

/-! ## Observations on the store -/

/-- Balance of a user: the `balance` of their `user_coins` row, `0` when the
row does not exist (`userCoins?.balance || 0` in the code). -/
def balanceOf (l : List UserCoins) (userId : String) : Int :=
  match l.find? (fun r => r.userId == userId) with
  | some r => r.balance
  | none => 0

/-- Number of purchase-type coin transactions linked to an order. -/
def purchaseCount (db : LedgerDb) (orderId : String) : Nat :=
  (db.transactions.filter
    (fun t => t.orderId == orderId && t.transactionType == "purchase")).length

/-! ## Stripe verification (`verifyStripePayment` and its route) -/

/-- The fields of a retrieved Stripe checkout session that
`verifyStripePayment` reads. -/
structure StripeSession where
  paymentStatus : String
  metadataUserId : Option String
  paymentIntentId : String
deriving DecidableEq, Repr

/-- The fields of `verifyStripePayment`'s result that the claims mention
(`plan`, read from the CMS, is an external lookup and is not modelled). -/
structure StripeVerifyResult where
  alreadyProcessed : Bool
  orderId : String
  creditedCoins : Int
  balance : Int
deriving DecidableEq, Repr

/-- `PaymentService.verifyStripePayment(sessionId, userId?)`.  `retrieve`
models `stripe.checkout.sessions.retrieve` (external; `none` is a failed
retrieval).  The ownership check `userId && session.metadata?.userId !==
userId` runs only when a `userId` argument is supplied. -/
def verifyStripePayment (retrieve : String → Option StripeSession)
    (sessionId : String) (userId : Option String) (db : LedgerDb) :
    Except ServiceError StripeVerifyResult :=
  match retrieve sessionId with
  | Option.none => .error .storage
  | some session =>
    if session.paymentStatus != "paid" then .error .paymentNotCompleted
    else if (match userId with
             | some uid => session.metadataUserId != some uid
             | Option.none => false) then .error .sessionUserMismatch
    else
      match db.orders.find? (fun o => o.providerOrderId == some sessionId) with
      | Option.none => .error .orderNotFound
      | some order =>
        .ok { alreadyProcessed := order.status == "completed"
              orderId := order.id
              creditedCoins := order.coins
              balance := balanceOf db.userCoins order.userId }

/-- The deployed `POST /api/v1/payment/verify/stripe` handler in `main.ts`:
it reads only `sessionId` from the body and calls
`verifyStripePayment(sessionId)` with no `userId` argument. -/
def verifyStripeRouteHandler (retrieve : String → Option StripeSession)
    (sessionId : String) (db : LedgerDb) :
    Except ServiceError StripeVerifyResult :=
  verifyStripePayment retrieve sessionId Option.none db

/-! ## Webhook intake (`routes/webhooks.ts`) -/

/-- Route answer: the success acknowledgment `{received: true}` or an
error status code. -/
inductive WebhookResp where
  | received
  | errorStatus (code : Nat)
deriving DecidableEq, Repr

/-- The fields of a verified Stripe event that the route handler reads.
For a `checkout.session.completed` event, `paymentStatus` and
`metadataOrderId` come from the session object; for a
`payment_intent.succeeded` event, `metadataOrderId` comes from the payment
intent's metadata. -/
structure StripeEvent where
  type : String
  id : String
  paymentStatus : String
  metadataOrderId : Option String
deriving DecidableEq, Repr

/-- The `POST /api/v1/webhooks/stripe` handler.  `hasSignature` is the
presence of the `stripe-signature` header, `hasSecret` of
`STRIPE_WEBHOOK_SECRET`; `constructEvent` is the outcome of
`stripe.webhooks.constructEvent` (`none` = signature verification threw).
Errors from `processPaymentSuccess` are caught by the inner `try/catch`
("不返回错误，避免 Stripe 重试") and the route still acknowledges. -/
def stripeWebhookRoute (hasSignature hasSecret : Bool)
    (constructEvent : Option StripeEvent) (faults : TxnFaults) (now : Nat)
    (db : LedgerDb) : WebhookResp × LedgerDb :=
  if !hasSignature then (.errorStatus 400, db)
  else if !hasSecret then (.errorStatus 500, db)
  else
    match constructEvent with
    | Option.none => (.errorStatus 400, db)
    | some event =>
      if event.type == "checkout.session.completed" then
        if event.paymentStatus == "paid" then
          match event.metadataOrderId with
          | some orderId =>
            let (_, db') := processPaymentSuccess faults now orderId event.id "stripe" db
            (.received, db')
          | Option.none => (.received, db)
        else (.received, db)
      else if event.type == "payment_intent.succeeded" then
        match event.metadataOrderId with
        | some orderId =>
          let (_, db') := processPaymentSuccess faults now orderId event.id "stripe" db
          (.received, db')
        | Option.none => (.received, db)
      else (.received, db)

/-- The fields of a PayPal webhook event that the route handler reads.
`customOrderId` is the `orderId` recovered from the capture's `custom_id`
JSON (`none` when absent). -/
structure PaypalEvent where
  eventType : String
  id : String
  captureStatus : String
  customOrderId : Option String
deriving DecidableEq, Repr

/-- The `POST /api/v1/webhooks/paypal` handler.  `headersPresent` is the
presence of the six `paypal-*` transmission headers, `webhookIdMatches`
the equality with `PAYPAL_WEBHOOK_ID`, `sigValid` the outcome of the
server-to-server `verifyPayPalWebhook` call.  As in the Stripe route,
errors from `processPaymentSuccess` are swallowed and acknowledged. -/
def paypalWebhookRoute (headersPresent webhookIdMatches sigValid : Bool)
    (event : PaypalEvent) (faults : TxnFaults) (now : Nat) (db : LedgerDb) :
    WebhookResp × LedgerDb :=
  if !headersPresent then (.errorStatus 400, db)
  else if !webhookIdMatches then (.errorStatus 400, db)
  else if !sigValid then (.errorStatus 400, db)
  else if event.eventType == "PAYMENT.CAPTURE.COMPLETED" then
    if event.captureStatus == "COMPLETED" then
      match event.customOrderId with
      | some orderId =>
        let (_, db') := processPaymentSuccess faults now orderId event.id "paypal" db
        (.received, db')
      | Option.none => (.received, db)
    else (.received, db)
  else (.received, db)

/-! ## Two concurrent completions

Each inbound delivery is handled independently; `processPaymentSuccess`
performs its idempotency check and its credit transaction as two separate
storage round-trips, with no row lock and no unique constraint on
`providerEventId` in the schema.  The model below runs two invocations of
the operation as threads of two atomic steps each — the check phase, then
the transaction — under an explicit interleaving schedule. -/

instance {ε α : Type _} [DecidableEq ε] [DecidableEq α] :
    DecidableEq (Except ε α) := fun x y =>
  match x, y with
  | .error a, .error b => decidable_of_iff (a = b) (by simp)
  | .error _, .ok _ => isFalse (by simp)
  | .ok _, .error _ => isFalse (by simp)
  | .ok a, .ok b => decidable_of_iff (a = b) (by simp)

/-- One in-flight invocation of `processPaymentSuccess`. -/
structure ThreadState where
  orderId : String
  eventId : String
  provider : String
  decision : Option Decision := Option.none
  result : Option (Except ServiceError ProcessResult) := Option.none
deriving DecidableEq, Repr

/-- A fresh invocation with the given arguments. -/
def ThreadState.start (orderId eventId provider : String) : ThreadState :=
  { orderId := orderId, eventId := eventId, provider := provider }

/-- Run one atomic step of an invocation: first the check phase (lookup +
already-completed test), then the step that commits its outcome — for a
`proceed` decision, the credit transaction on the *current* store. -/
def threadStep (now : Nat) (db : LedgerDb) (t : ThreadState) :
    LedgerDb × ThreadState :=
  match t.result with
  | some _ => (db, t)
  | Option.none =>
    match t.decision with
    | Option.none => (db, { t with decision := some (checkPhase db t.orderId t.eventId) })
    | some .notFound => (db, { t with result := some (.error .orderNotFound) })
    | some (.already o) => (db, { t with result := some (.ok ⟨true, o⟩) })
    | some .proceed =>
      match runCreditTxn TxnFaults.none now t.orderId t.eventId db with
      | .ok (o, db') => (db', { t with result := some (.ok ⟨false, o⟩) })
      | .error e => (db, { t with result := some (.error e) })

/-- Shared store plus the two in-flight invocations. -/
structure SysState where
  db : LedgerDb
  t1 : ThreadState
  t2 : ThreadState
deriving DecidableEq, Repr

/-- Run one step of the scheduled thread (`false` = first invocation,
`true` = second). -/
def schedStep (now : Nat) (s : SysState) (second : Bool) : SysState :=
  if second then
    let (db', t') := threadStep now s.db s.t2
    { s with db := db', t2 := t' }
  else
    let (db', t') := threadStep now s.db s.t1
    { s with db := db', t1 := t' }

/-- Run a whole interleaving schedule. -/
def runSched (now : Nat) (sched : List Bool) (s : SysState) : SysState :=
  sched.foldl (schedStep now) s

/-! ## Reachable stores

The states the store can be in when every mutation goes through the
payment service: order creation (with a Prisma-generated fresh id),
attaching a provider order id, and completion attempts with arbitrary
arguments and arbitrary injected storage faults. -/

/-- Reachability of a store through the payment service's operations. -/
inductive Reachable : LedgerDb → Prop where
  | init : Reachable LedgerDb.empty
  | create (db : LedgerDb) (newId userId tierKey provider : String)
      (tierConfig : PaymentTier) (providerOrderId : Option String)
      (hr : Reachable db) (hfresh : ∀ o ∈ db.orders, o.id ≠ newId) :
      Reachable (createPaymentOrder newId userId tierKey provider tierConfig
        providerOrderId db).2
  | attach (db : LedgerDb) (orderId providerOrderId : String)
      (hr : Reachable db) :
      Reachable (attachProviderOrderId db orderId providerOrderId)
  | process (db : LedgerDb) (faults : TxnFaults) (now : Nat)
      (orderId providerEventId provider : String) (hr : Reachable db) :
      Reachable (processPaymentSuccess faults now orderId providerEventId
        provider db).2

/-- The ledger invariant: an order carries a `providerEventId` only once
completed; a completed order has a purchase transaction; every transaction
points at a completed order. -/
def LedgerInv (db : LedgerDb) : Prop :=
  (∀ o ∈ db.orders, o.providerEventId ≠ Option.none → o.status = "completed") ∧
  (∀ o ∈ db.orders, o.status = "completed" →
    ∃ t ∈ db.transactions, t.orderId = o.id ∧ t.transactionType = "purchase") ∧
  (∀ t ∈ db.transactions, ∃ o ∈ db.orders, o.id = t.orderId ∧ o.status = "completed")

/-- The decidable per-store hypothesis used by the idempotency theorems:
order ids are pairwise distinct (the primary key) and a `providerEventId`
is only present on completed orders. -/
def DbInv (db : LedgerDb) : Prop :=
  (db.orders.map (·.id)).Nodup ∧
  ∀ o ∈ db.orders, o.providerEventId ≠ Option.none → o.status = "completed"

instance (db : LedgerDb) : Decidable (DbInv db) := by
  unfold DbInv
  exact inferInstance

/-! ## JSON bodies and signature-verification inputs

Fastify parses a JSON request body into a value; `JSON.stringify`
re-serialises it in canonical form (no insignificant whitespace).  Both are
external collaborators; they are modelled here on JSON values with integer
numerals, which is enough to express what the routes hand to the signature
verifiers as a function of the raw request-body bytes. -/

/-- A JSON value (numbers restricted to integers). -/
inductive Json where
  | null
  | bool (b : Bool)
  | num (n : Int)
  | str (s : String)
  | arr (elems : List Json)
  | obj (fields : List (String × Json))

/-- JSON string escaping of `JSON.stringify` (the escapes used here). -/
def escapeJsonChars : List Char → List Char
  | [] => []
  | c :: cs =>
    if c = '"' then '\\' :: '"' :: escapeJsonChars cs
    else if c = '\\' then '\\' :: '\\' :: escapeJsonChars cs
    else if c = '\n' then '\\' :: 'n' :: escapeJsonChars cs
    else c :: escapeJsonChars cs

/-- JSON string escaping, on strings. -/
def escapeJsonString (s : String) : String :=
  String.mk (escapeJsonChars s.toList)

mutual

/-- `JSON.stringify`: canonical serialisation, no whitespace. -/
def jsonStringify : Json → String
  | .null => "null"
  | .bool true => "true"
  | .bool false => "false"
  | .num n => toString n
  | .str s => "\"" ++ escapeJsonString s ++ "\""
  | .arr elems => "[" ++ jsonStringifyElems elems ++ "]"
  | .obj fields => "\x7b" ++ jsonStringifyFields fields ++ "\x7d"
termination_by structural j => j

/-- Comma-separated serialisation of array elements. -/
def jsonStringifyElems : List Json → String
  | [] => ""
  | [x] => jsonStringify x
  | x :: xs => jsonStringify x ++ "," ++ jsonStringifyElems xs
termination_by structural l => l

/-- Comma-separated serialisation of object fields. -/
def jsonStringifyFields : List (String × Json) → String
  | [] => ""
  | [(k, v)] => "\"" ++ escapeJsonString k ++ "\":" ++ jsonStringify v
  | (k, v) :: fs =>
    "\"" ++ escapeJsonString k ++ "\":" ++ jsonStringify v ++ "," ++
      jsonStringifyFields fs
termination_by structural l => l

end

/-- Skip JSON insignificant whitespace. -/
def skipWs : List Char → List Char
  | c :: cs => if c = ' ' ∨ c = '\n' ∨ c = '\t' ∨ c = '\r' then skipWs cs else c :: cs
  | [] => []

/-- Consume a run of decimal digits, accumulating their value. -/
def takeDigits (acc : Nat) : List Char → Nat × List Char
  | c :: cs => if c.isDigit then takeDigits (acc * 10 + (c.toNat - 48)) cs else (acc, c :: cs)
  | [] => (acc, [])

/-- Parse the remainder of a JSON string literal (after the opening quote),
accumulating into `acc`; handles the escapes produced above. -/
def parseStringLit (acc : String) : List Char → Option (String × List Char)
  | [] => Option.none
  | '"' :: cs => some (acc, cs)
  | '\\' :: c :: cs =>
    if c = '"' then parseStringLit (acc.push '"') cs
    else if c = '\\' then parseStringLit (acc.push '\\') cs
    else if c = 'n' then parseStringLit (acc.push '\n') cs
    else Option.none
  | c :: cs => parseStringLit (acc.push c) cs

mutual

/-- Fuel-bounded recursive-descent parser for a JSON value; returns the
value and the unconsumed input. -/
def parseJsonValue : Nat → List Char → Option (Json × List Char)
  | 0, _ => Option.none
  | fuel + 1, cs =>
    match skipWs cs with
    | 'n' :: 'u' :: 'l' :: 'l' :: rest => some (.null, rest)
    | 't' :: 'r' :: 'u' :: 'e' :: rest => some (.bool true, rest)
    | 'f' :: 'a' :: 'l' :: 's' :: 'e' :: rest => some (.bool false, rest)
    | '"' :: rest => (parseStringLit "" rest).map (fun p => (.str p.1, p.2))
    | '-' :: c :: rest =>
      if c.isDigit then
        let p := takeDigits 0 (c :: rest)
        some (.num (-(p.1 : Int)), p.2)
      else Option.none
    | '[' :: rest =>
      (match skipWs rest with
       | ']' :: rest' => some (.arr [], rest')
       | _ => (parseJsonElems fuel rest).map (fun p => (.arr p.1, p.2)))
    | c :: rest =>
      if c = Char.ofNat 123 then
        (match skipWs rest with
         | c' :: rest' =>
           if c' = Char.ofNat 125 then some (.obj [], rest')
           else (parseJsonFields fuel (c' :: rest')).map (fun p => (.obj p.1, p.2))
         | [] => Option.none)
      else if c.isDigit then
        let p := takeDigits 0 (c :: rest)
        some (.num (p.1 : Int), p.2)
      else Option.none
    | [] => Option.none
termination_by structural fuel _ => fuel

/-- Parse the elements of a non-empty JSON array (after `[`). -/
def parseJsonElems : Nat → List Char → Option (List Json × List Char)
  | 0, _ => Option.none
  | fuel + 1, cs =>
    match parseJsonValue fuel cs with
    | Option.none => Option.none
    | some (v, rest) =>
      match skipWs rest with
      | ',' :: rest' =>
        (parseJsonElems fuel rest').map (fun p => (v :: p.1, p.2))
      | ']' :: rest' => some ([v], rest')
      | _ => Option.none
termination_by structural fuel _ => fuel

/-- Parse the fields of a non-empty JSON object (after `{`). -/
def parseJsonFields : Nat → List Char → Option (List (String × Json) × List Char)
  | 0, _ => Option.none
  | fuel + 1, cs =>
    match skipWs cs with
    | '"' :: rest =>
      match parseStringLit "" rest with
      | Option.none => Option.none
      | some (key, rest') =>
        match skipWs rest' with
        | ':' :: rest'' =>
          match parseJsonValue fuel rest'' with
          | Option.none => Option.none
          | some (v, rest''') =>
            match skipWs rest''' with
            | ',' :: more =>
              (parseJsonFields fuel more).map (fun p => ((key, v) :: p.1, p.2))
            | c :: more =>
              if c = Char.ofNat 125 then some ([(key, v)], more) else Option.none
            | [] => Option.none
        | _ => Option.none
    | _ => Option.none
termination_by structural fuel _ => fuel

end

/-- `JSON.parse` (as performed by fastify's JSON body parser): parse one
value, allow trailing whitespace, reject anything else. -/
def jsonParse (s : String) : Option Json :=
  match parseJsonValue (s.length + 1) s.toList with
  | some (j, rest) => if skipWs rest = [] then some j else Option.none
  | Option.none => Option.none

/-! ### What each webhook route hands to its signature verifier -/

/-- `webhooks.ts`, Stripe route: `stripe.webhooks.constructEvent(body,
signature, secret)` where `body` is `request.body` as received — the route
itself performs no re-encoding of the body before verification. -/
def stripeMainVerifyInput (rawBody : String) : String := rawBody

/-- `webhooks.ts`, PayPal route: `body = JSON.stringify(request.body)`
where `request.body` is fastify's parsed value of the raw bytes, and the
`webhook_event` presented to PayPal's verify endpoint is serialised from
it; the bytes presented are therefore the canonical re-serialisation of
the parse of the raw body (`none` when the body is not JSON — fastify then
rejects before the handler runs). -/
def paypalVerifyEventBytes (rawBody : String) : Option String :=
  match jsonParse rawBody with
  | some parsed =>
    match jsonParse (jsonStringify parsed) with
    | some webhookEvent => some (jsonStringify webhookEvent)
    | Option.none => Option.none
  | Option.none => Option.none

/-- `src/unnamed/part_003`, Stripe route variant: `bodyString = typeof body
=== 'string' ? body : JSON.stringify(body)` over the parsed body, then
`constructEvent(bodyString, ...)`. -/
def part003StripeVerifyInput (rawBody : String) : Option String :=
  match jsonParse rawBody with
  | some (.str s) => some s
  | some parsed => some (jsonStringify parsed)
  | Option.none => Option.none

/-! ## Iterated completion calls and concrete stores for the scenarios -/

/-- `n` further calls of `processPaymentSuccess` with fixed arguments,
keeping only the evolving store. -/
def processIter (faults : TxnFaults) (now : Nat) (orderId providerEventId provider : String) :
    Nat → LedgerDb → LedgerDb
  | 0, db => db
  | n + 1, db =>
    processIter faults now orderId providerEventId provider n
      (processPaymentSuccess faults now orderId providerEventId provider db).2

/-- A pending `coins_300` order (350 coins at 499 cents), as `createOrder`
leaves it. -/
def pendingOrder0 : PaymentOrder :=
  { id := "p1"
    userId := "u1"
    tierKey := "coins_300"
    provider := "stripe"
    amountCents := 499
    coins := 350
    status := "pending" }

/-- A store holding just the pending order, no balances, no transactions. -/
def pendingDb0 : LedgerDb := ⟨[pendingOrder0], [], []⟩

/-- An order already completed by provider event `evt9`. -/
def completedOrder0 : PaymentOrder :=
  { id := "o9"
    userId := "u9"
    tierKey := "coins_100"
    provider := "stripe"
    providerOrderId := some "sess9"
    providerEventId := some "evt9"
    amountCents := 199
    coins := 100
    status := "completed"
    completedAt := some 3 }

/-- A consistent store holding the pending order (first) and the completed
order, the completed order's balance row and its purchase transaction. -/
def mixedDb0 : LedgerDb :=
  ⟨[pendingOrder0, completedOrder0],
   [⟨"u9", 100⟩],
   [mkPurchaseTransaction completedOrder0]⟩

/-- A pending order that carries a recorded provider event id — the
premise of the spec's "found only by previously recorded providerEventId"
webhook-retry case. -/
def pendingEvtOrder0 : PaymentOrder :=
  { pendingOrder0 with providerEventId := some "evt1" }

/-- A store holding only that order. -/
def pendingEvtDb0 : LedgerDb := ⟨[pendingEvtOrder0], [], []⟩

/-- A concrete session-retrieval function: session `sess9` belongs to user
`u9` and is paid. -/
def retrieve0 : String → Option StripeSession :=
  fun s => if s = "sess9" then some ⟨"paid", some "u9", "pi9"⟩ else Option.none

/-! ## Helper lemmas: first-match searching and updating -/

theorem find?_eq_some_split {p : α → Bool} {l : List α} {x : α}
    (h : l.find? p = some x) :
    ∃ l₁ l₂, l = l₁ ++ x :: l₂ ∧ ∀ y ∈ l₁, p y = false := by
  induction l with
  | nil => simp at h
  | cons a as ih =>
    by_cases hpa : p a = true
    · rw [List.find?_cons_of_pos _ hpa] at h
      have hax : a = x := by simpa using h
      subst hax
      exact ⟨[], as, by simp, by simp⟩
    · rw [List.find?_cons_of_neg _ (by simpa using hpa)] at h
      obtain ⟨l₁, l₂, hsplit, hl₁⟩ := ih h
      refine ⟨a :: l₁, l₂, by simp [hsplit], ?_⟩
      intro y hy
      rcases List.mem_cons.mp hy with rfl | hy'
      · simpa using hpa
      · exact hl₁ y hy'

theorem find?_middle {p : α → Bool} (l₁ : List α) (x : α) (l₂ : List α)
    (h₁ : ∀ y ∈ l₁, p y = false) (hx : p x = true) :
    (l₁ ++ x :: l₂).find? p = some x := by
  induction l₁ with
  | nil => simpa using List.find?_cons_of_pos _ hx
  | cons a as ih =>
    have ha : p a = false := h₁ a (by simp)
    rw [List.cons_append, List.find?_cons_of_neg _ (by simp [ha])]
    exact ih (fun y hy => h₁ y (by simp [hy]))

theorem find?_eq_some_of_unique {p : α → Bool} {l : List α} {x : α}
    (hmem : x ∈ l) (hx : p x = true) (huniq : ∀ y ∈ l, p y = true → y = x) :
    l.find? p = some x := by
  induction l with
  | nil => simp at hmem
  | cons a as ih =>
    by_cases hpa : p a = true
    · have : a = x := huniq a (by simp) hpa
      subst this
      exact List.find?_cons_of_pos _ hpa
    · rw [List.find?_cons_of_neg _ (by simpa using hpa)]
      have hxas : x ∈ as := by
        rcases List.mem_cons.mp hmem with rfl | h
        · exact absurd hx hpa
        · exact h
      exact ih hxas (fun y hy hp => huniq y (by simp [hy]) hp)

theorem updateFirst_middle {p : α → Bool} {f : α → α} (l₁ : List α) (x : α)
    (l₂ : List α) (h₁ : ∀ y ∈ l₁, p y = false) (hx : p x = true) :
    updateFirst p f (l₁ ++ x :: l₂) = some (f x, l₁ ++ f x :: l₂) := by
  induction l₁ with
  | nil => simp [updateFirst, hx]
  | cons a as ih =>
    have ha : p a = false := h₁ a (by simp)
    simp [updateFirst, ha, ih (fun y hy => h₁ y (by simp [hy]))]

theorem updateFirst_eq_some {p : α → Bool} {f : α → α} {l l' : List α} {u : α}
    (h : updateFirst p f l = some (u, l')) :
    ∃ x l₁ l₂, l = l₁ ++ x :: l₂ ∧ p x = true ∧ (∀ y ∈ l₁, p y = false) ∧
      u = f x ∧ l' = l₁ ++ f x :: l₂ := by
  induction l generalizing l' with
  | nil => simp [updateFirst] at h
  | cons a as ih =>
    by_cases hpa : p a = true
    · simp only [updateFirst, hpa, if_pos] at h
      obtain ⟨hu, hl⟩ := Prod.mk.injEq .. ▸ Option.some.injEq .. ▸ h
      exact ⟨a, [], as, by simp, hpa, by simp, hu.symm, by simp [hl.symm]⟩
    · simp only [updateFirst, hpa, if_neg, Bool.not_eq_true] at h
      cases hrec : updateFirst p f as with
      | none => rw [hrec] at h; simp at h
      | some pr =>
        obtain ⟨u0, ys⟩ := pr
        rw [hrec] at h
        simp only [Option.some.injEq, Prod.mk.injEq] at h
        obtain ⟨hu, hl⟩ := h
        obtain ⟨x, l₁, l₂, hsplit, hx, hl₁, hux, hys⟩ := ih (hu ▸ hrec)
        refine ⟨x, a :: l₁, l₂, by simp [hsplit], hx, ?_, hux, by simp [← hl, hys]⟩
        intro y hy
        rcases List.mem_cons.mp hy with rfl | hy'
        · simpa using hpa
        · exact hl₁ y hy'

/-! ## Helper lemmas: the balance upsert -/

theorem balanceOf_upsert_self (l : List UserCoins) (uid : String) (c : Int) :
    balanceOf (upsertUserCoins l uid c) uid = balanceOf l uid + c := by
  induction l with
  | nil => simp [upsertUserCoins, balanceOf, List.find?]
  | cons r rs ih =>
    by_cases h : (r.userId == uid) = true
    · simp [upsertUserCoins, h, balanceOf, List.find?]
    · simp only [upsertUserCoins, h, if_neg, Bool.not_eq_true]
      simp only [balanceOf, List.find?, h] at ih ⊢
      exact ih

/-! ## Helper lemmas: the completion operation -/

theorem lookupOrder_pred {db : LedgerDb} {oid e : String} {P : PaymentOrder}
    (h : lookupOrder db oid e = some P) :
    (P.id == oid || P.providerEventId == some e) = true := by
  unfold lookupOrder at h
  simpa using List.find?_some h

theorem lookupOrder_mem {db : LedgerDb} {oid e : String} {P : PaymentOrder}
    (h : lookupOrder db oid e = some P) : P ∈ db.orders := by
  unfold lookupOrder at h
  exact List.mem_of_find?_eq_some h

/-- A not-yet-completed lookup result was necessarily matched by its id,
given that only completed orders carry a `providerEventId`. -/
theorem lookupOrder_id_of_not_completed {db : LedgerDb} {oid e : String}
    {P : PaymentOrder}
    (hinv : ∀ o ∈ db.orders, o.providerEventId ≠ Option.none → o.status = "completed")
    (h : lookupOrder db oid e = some P) (hp : P.status ≠ "completed") :
    P.id = oid := by
  rcases Bool.or_eq_true_iff.mp (lookupOrder_pred h) with hid | hevt
  · exact beq_iff_eq.mp hid
  · have hev : P.providerEventId = some e := beq_iff_eq.mp hevt
    exact absurd (hinv P (lookupOrder_mem h) (by simp [hev])) hp

/-- The idempotency short-circuit: a completed lookup result means no
writes and `alreadyProcessed = true`, whatever the faults. -/
theorem processPaymentSuccess_already {db : LedgerDb} {oid e : String}
    {P : PaymentOrder} (faults : TxnFaults) (now : Nat) (pr : String)
    (h : lookupOrder db oid e = some P) (hc : P.status = "completed") :
    processPaymentSuccess faults now oid e pr db = (.ok ⟨true, P⟩, db) := by
  simp [processPaymentSuccess, checkPhase, h, hc]

/-- The fault-free credit transaction on an order found by its own id:
exact result and store shape. -/
theorem runCreditTxn_pending_success {db : LedgerDb} {oid e : String}
    {P : PaymentOrder} (now : Nat)
    (h : lookupOrder db oid e = some P) (hid : P.id = oid) :
    ∃ l₁ l₂, db.orders = l₁ ++ P :: l₂ ∧
      (∀ y ∈ l₁, (y.id == oid || y.providerEventId == some e) = false) ∧
      runCreditTxn TxnFaults.none now oid e db =
        .ok (completeOrder now e P, creditSuccessDb now e P l₁ l₂ db) := by
  obtain ⟨l₁, l₂, hsplit, hl₁⟩ := find?_eq_some_split h
  refine ⟨l₁, l₂, hsplit, hl₁, ?_⟩
  have hupd : updateFirst (fun o => o.id == oid) (completeOrder now e) db.orders
      = some (completeOrder now e P, l₁ ++ completeOrder now e P :: l₂) := by
    rw [hsplit]
    refine updateFirst_middle l₁ P l₂ (fun y hy => ?_) (by simp [hid])
    have := hl₁ y hy
    exact (Bool.or_eq_false_iff.mp this).1
  simp [runCreditTxn, TxnFaults.none, hupd, creditSuccessDb, completeOrder]

/-- The fault-free completion of a pending order found by its own id. -/
theorem processPaymentSuccess_pending {db : LedgerDb} {oid e : String}
    {P : PaymentOrder} (now : Nat) (pr : String)
    (h : lookupOrder db oid e = some P) (hpend : P.status = "pending")
    (hid : P.id = oid) :
    ∃ l₁ l₂, db.orders = l₁ ++ P :: l₂ ∧
      (∀ y ∈ l₁, (y.id == oid || y.providerEventId == some e) = false) ∧
      processPaymentSuccess TxnFaults.none now oid e pr db =
        (.ok ⟨false, completeOrder now e P⟩, creditSuccessDb now e P l₁ l₂ db) := by
  obtain ⟨l₁, l₂, hsplit, hl₁, hrun⟩ := runCreditTxn_pending_success now h hid
  refine ⟨l₁, l₂, hsplit, hl₁, ?_⟩
  simp [processPaymentSuccess, checkPhase, h, hpend, hrun]

/-- After a successful credit, the same lookup finds the completed order. -/
theorem lookupOrder_creditSuccessDb {db : LedgerDb} {oid e : String}
    {P : PaymentOrder} {l₁ l₂ : List PaymentOrder} (now : Nat)
    (hsplit : db.orders = l₁ ++ P :: l₂)
    (hl₁ : ∀ y ∈ l₁, (y.id == oid || y.providerEventId == some e) = false)
    (hid : P.id = oid) :
    lookupOrder (creditSuccessDb now e P l₁ l₂ db) oid e =
      some (completeOrder now e P) := by
  unfold lookupOrder creditSuccessDb
  exact find?_middle l₁ _ l₂ hl₁ (by simp [completeOrder, hid])

/-- The purchase-transaction count of the credited order rises by one. -/
theorem purchaseCount_creditSuccessDb {db : LedgerDb} {e : String}
    {P : PaymentOrder} {l₁ l₂ : List PaymentOrder} (now : Nat) :
    purchaseCount (creditSuccessDb now e P l₁ l₂ db) P.id =
      purchaseCount db P.id + 1 := by
  simp [purchaseCount, creditSuccessDb, List.filter_append,
    mkPurchaseTransaction, completeOrder]

/-- The credited user's balance rises by the order's coins. -/
theorem balanceOf_creditSuccessDb {db : LedgerDb} {e : String}
    {P : PaymentOrder} {l₁ l₂ : List PaymentOrder} (now : Nat) :
    balanceOf (creditSuccessDb now e P l₁ l₂ db).userCoins P.userId =
      balanceOf db.userCoins P.userId + P.coins := by
  simp [creditSuccessDb, balanceOf_upsert_self]

/-- A `proceed` decision comes from a lookup that found a not-yet-completed
order. -/
theorem checkPhase_proceed {db : LedgerDb} {oid e : String}
    (h : checkPhase db oid e = .proceed) :
    ∃ M, lookupOrder db oid e = some M ∧ M.status ≠ "completed" := by
  unfold checkPhase at h
  cases hl : lookupOrder db oid e with
  | none => rw [hl] at h; exact absurd h (by simp)
  | some M =>
    rw [hl] at h
    dsimp only at h
    by_cases hc : (M.status == "completed") = true
    · rw [if_pos hc] at h; exact absurd h (by simp)
    · exact ⟨M, rfl, by simpa [beq_iff_eq] using hc⟩

/-- Shape of a successful credit transaction: the first order carrying the
supplied id is completed, the owner credited, one purchase row appended. -/
theorem runCreditTxn_ok_shape {faults : TxnFaults} {now : Nat}
    {oid e : String} {db dbq : LedgerDb} {u : PaymentOrder}
    (h : runCreditTxn faults now oid e db = .ok (u, dbq)) :
    ∃ x l₁ l₂, db.orders = l₁ ++ x :: l₂ ∧ x.id = oid ∧
      (∀ y ∈ l₁, (y.id == oid) = false) ∧ u = completeOrder now e x ∧
      dbq = creditSuccessDb now e x l₁ l₂ db := by
  unfold runCreditTxn at h
  cases h1 : faults.failUpdate with
  | true => rw [h1] at h; exact absurd h (by simp)
  | false =>
    rw [h1] at h
    simp only [Bool.false_eq_true, if_neg, if_false] at h
    cases hupd : updateFirst (fun o => o.id == oid)
        (completeOrder now e) db.orders with
    | none => rw [hupd] at h; exact absurd h (by simp)
    | some pr =>
      obtain ⟨u0, orders'⟩ := pr
      rw [hupd] at h
      cases h2 : faults.failUpsert with
      | true => rw [h2] at h; exact absurd h (by simp)
      | false =>
        rw [h2] at h
        cases h3 : faults.failCreate with
        | true => simp [h3] at h
        | false =>
          simp only [h3, Bool.false_eq_true, if_neg, if_false,
            Except.ok.injEq, Prod.mk.injEq] at h
          obtain ⟨hu, hdbq⟩ := h
          obtain ⟨x, l₁, l₂, hsplit, hpx, hl₁, hux, horders⟩ :=
            updateFirst_eq_some hupd
          refine ⟨x, l₁, l₂, hsplit, beq_iff_eq.mp hpx, hl₁, by rw [← hu, hux], ?_⟩
          rw [← hdbq, hux] at *
          simp [creditSuccessDb, horders, completeOrder]

/-- Two first-match decompositions for the same predicate name the same
element. -/
theorem first_match_eq {p : α → Bool} {l l₁ l₂ m₁ m₂ : List α} {x y : α}
    (hx : l = l₁ ++ x :: l₂) (hl₁ : ∀ z ∈ l₁, p z = false) (hpx : p x = true)
    (hy : l = m₁ ++ y :: m₂) (hm₁ : ∀ z ∈ m₁, p z = false)
    (hpy : p y = true) : x = y := by
  have h1 : l.find? p = some x := hx ▸ find?_middle l₁ x l₂ hl₁ hpx
  have h2 : l.find? p = some y := hy ▸ find?_middle m₁ y m₂ hm₁ hpy
  exact Option.some.injEq .. ▸ (h1.symm.trans h2)

/-- Every store reachable through the payment service satisfies the ledger
invariant. -/
theorem reachable_ledgerInv {db : LedgerDb} (hr : Reachable db) :
    LedgerInv db := by
  induction hr with
  | init => refine ⟨?_, ?_, ?_⟩ <;> simp [LedgerDb.empty]
  | create db newId userId tierKey provider tierConfig providerOrderId hr hfresh ih =>
    obtain ⟨ih1, ih2, ih3⟩ := ih
    unfold createPaymentOrder
    refine ⟨?_, ?_, ?_⟩
    · intro o ho
      rcases List.mem_append.mp ho with ho' | ho'
      · exact ih1 o ho'
      · intro hne
        simp only [List.mem_singleton] at ho'
        subst ho'
        simp at hne
    · intro o ho hc
      rcases List.mem_append.mp ho with ho' | ho'
      · exact ih2 o ho' hc
      · simp only [List.mem_singleton] at ho'
        subst ho'
        simp at hc
    · intro t ht
      obtain ⟨o, ho, hoid, hoc⟩ := ih3 t ht
      exact ⟨o, List.mem_append_left _ ho, hoid, hoc⟩
  | attach db orderId providerOrderId hr ih =>
    obtain ⟨ih1, ih2, ih3⟩ := ih
    unfold attachProviderOrderId
    cases hm : updateFirst (fun o => o.id == orderId)
        (fun o => { o with providerOrderId := some providerOrderId }) db.orders with
    | none => exact ⟨ih1, ih2, ih3⟩
    | some pr =>
      obtain ⟨u, orders'⟩ := pr
      obtain ⟨x, l₁, l₂, hsplit, hpx, hl₁, hux, horders⟩ := updateFirst_eq_some hm
      have hxmem : x ∈ db.orders := by rw [hsplit]; simp
      refine ⟨?_, ?_, ?_⟩
      · intro o ho
        simp only at ho
        rw [horders] at ho
        rcases List.mem_append.mp ho with ho' | ho'
        · exact ih1 o (by rw [hsplit]; exact List.mem_append_left _ ho')
        · rcases List.mem_cons.mp ho' with rfl | ho''
          · exact ih1 x hxmem
          · exact ih1 o (by rw [hsplit]; exact List.mem_append_right _ (List.mem_cons_of_mem _ ho''))
      · intro o ho hc
        simp only at ho ⊢
        rw [horders] at ho
        rcases List.mem_append.mp ho with ho' | ho'
        · exact ih2 o (by rw [hsplit]; exact List.mem_append_left _ ho') hc
        · rcases List.mem_cons.mp ho' with rfl | ho''
          · obtain ⟨t, ht, htid, htty⟩ := ih2 x hxmem hc
            exact ⟨t, ht, htid, htty⟩
          · exact ih2 o (by rw [hsplit]; exact List.mem_append_right _ (List.mem_cons_of_mem _ ho'')) hc
      · intro t ht
        simp only at ht
        obtain ⟨o, ho, hoid, hoc⟩ := ih3 t ht
        rw [hsplit] at ho
        simp only [horders]
        rcases List.mem_append.mp ho with ho' | ho'
        · exact ⟨o, List.mem_append_left _ ho', hoid, hoc⟩
        · rcases List.mem_cons.mp ho' with rfl | ho''
          · refine ⟨{ o with providerOrderId := some providerOrderId },
              List.mem_append_right _ (List.mem_cons_self _ _), hoid, hoc⟩
          · exact ⟨o, List.mem_append_right _ (List.mem_cons_of_mem _ ho''), hoid, hoc⟩
  | process db faults now orderId providerEventId provider hr ih =>
    obtain ⟨ih1, ih2, ih3⟩ := ih
    unfold processPaymentSuccess
    cases hcp : checkPhase db orderId providerEventId with
    | notFound => exact ⟨ih1, ih2, ih3⟩
    | already o => exact ⟨ih1, ih2, ih3⟩
    | proceed =>
      cases hrt : runCreditTxn faults now orderId providerEventId db with
      | error e => exact ⟨ih1, ih2, ih3⟩
      | ok pr =>
        obtain ⟨u, dbq⟩ := pr
        simp only
        obtain ⟨x, l₁, l₂, hsplit, hxid, hl₁, hux, hdbq⟩ := runCreditTxn_ok_shape hrt
        obtain ⟨M, hM, hMnc⟩ := checkPhase_proceed hcp
        have hMid : M.id = orderId := lookupOrder_id_of_not_completed ih1 hM hMnc
        have hMfind : db.orders.find?
            (fun o => o.id == orderId || o.providerEventId == some providerEventId) =
              some M := hM
        obtain ⟨m₁, m₂, hMsplit, hm₁⟩ := find?_eq_some_split hMfind
        have hxM : x = M := by
          refine first_match_eq (p := fun o => (o.id == orderId)) hsplit hl₁
            (by simp [hxid]) hMsplit ?_ (by simp [hMid])
          intro z hz
          exact (Bool.or_eq_false_iff.mp (hm₁ z hz)).1
        subst hxM
        subst hdbq
        refine ⟨?_, ?_, ?_⟩
        · intro o ho
          simp only [creditSuccessDb] at ho
          rcases List.mem_append.mp ho with ho' | ho'
          · exact ih1 o (by rw [hsplit]; exact List.mem_append_left _ ho')
          · rcases List.mem_cons.mp ho' with rfl | ho''
            · intro _; simp [completeOrder]
            · exact ih1 o (by rw [hsplit]; exact List.mem_append_right _ (List.mem_cons_of_mem _ ho''))
        · intro o ho hc
          simp only [creditSuccessDb] at ho ⊢
          rcases List.mem_append.mp ho with ho' | ho'
          · obtain ⟨t, ht, htid, htty⟩ := ih2 o
              (by rw [hsplit]; exact List.mem_append_left _ ho') hc
            exact ⟨t, List.mem_append_left _ ht, htid, htty⟩
          · rcases List.mem_cons.mp ho' with rfl | ho''
            · refine ⟨mkPurchaseTransaction (completeOrder now providerEventId x),
                List.mem_append_right _ (List.mem_cons_self _ _), rfl, rfl⟩
            · obtain ⟨t, ht, htid, htty⟩ := ih2 o
                (by rw [hsplit]; exact List.mem_append_right _ (List.mem_cons_of_mem _ ho'')) hc
              exact ⟨t, List.mem_append_left _ ht, htid, htty⟩
        · intro t ht
          simp only [creditSuccessDb] at ht ⊢
          rcases List.mem_append.mp ht with ht' | ht'
          · obtain ⟨o, ho, hoid, hoc⟩ := ih3 t ht'
            rw [hsplit] at ho
            rcases List.mem_append.mp ho with ho' | ho'
            · exact ⟨o, List.mem_append_left _ ho', hoid, hoc⟩
            · rcases List.mem_cons.mp ho' with rfl | ho''
              · exact absurd hoc hMnc
              · exact ⟨o, List.mem_append_right _ (List.mem_cons_of_mem _ ho''), hoid, hoc⟩
          · simp only [List.mem_singleton] at ht'
            subst ht'
            exact ⟨completeOrder now providerEventId x,
              List.mem_append_right _ (List.mem_cons_self _ _), rfl, rfl⟩

/-- A fixed point of one completion call is a fixed point of any number of
them. -/
theorem processIter_fixed {faults : TxnFaults} {now : Nat}
    {oid e pr : String} {db : LedgerDb}
    (h : (processPaymentSuccess faults now oid e pr db).2 = db) :
    ∀ n, processIter faults now oid e pr n db = db := by
  intro n
  induction n with
  | zero => rfl
  | succ n ih => simp [processIter, h, ih]

/-- Under `DbInv`, a call whose `orderId` argument is a completed order's
id resolves (whatever the event id) to some completed order. -/
theorem DbInv_lookup_completed {db : LedgerDb} {O : PaymentOrder}
    (e : String) (hinv : DbInv db) (hO : O ∈ db.orders)
    (hc : O.status = "completed") :
    ∃ M, lookupOrder db O.id e = some M ∧ M.status = "completed" := by
  have hsome : (db.orders.find?
      (fun o => o.id == O.id || o.providerEventId == some e)).isSome := by
    rw [List.find?_isSome]
    exact ⟨O, hO, by simp⟩
  obtain ⟨M, hM⟩ := Option.isSome_iff_exists.mp hsome
  refine ⟨M, hM, ?_⟩
  have hMmem : M ∈ db.orders := List.mem_of_find?_eq_some hM
  have hpM : (M.id == O.id || M.providerEventId == some e) = true := by
    simpa using List.find?_some hM
  rcases Bool.or_eq_true_iff.mp hpM with hid | hevt
  · have : M = O :=
      List.inj_on_of_nodup_map hinv.1 hMmem hO (beq_iff_eq.mp hid)
    rwa [this]
  · exact hinv.2 M hMmem (by simp [beq_iff_eq.mp hevt])

/-- Under `DbInv`, a pending order is found by its own id when the supplied
event id is fresh. -/
theorem lookup_self_of_fresh {db : LedgerDb} {P : PaymentOrder} {e : String}
    (hinv : DbInv db) (hP : P ∈ db.orders)
    (hfresh : ∀ o ∈ db.orders, o.providerEventId ≠ some e) :
    lookupOrder db P.id e = some P := by
  unfold lookupOrder
  refine find?_eq_some_of_unique hP (by simp) ?_
  intro y hy hp
  have hp' : (y.id == P.id || y.providerEventId == some e) = true := by
    simpa using hp
  rcases Bool.or_eq_true_iff.mp hp' with hid | hevt
  · exact List.inj_on_of_nodup_map hinv.1 hy hP (beq_iff_eq.mp hid)
  · exact absurd (beq_iff_eq.mp hevt) (hfresh y hy)

theorem updateFirst_none {p : α → Bool} {f : α → α} {l : List α}
    (h : ∀ y ∈ l, p y = false) : updateFirst p f l = none := by
  induction l with
  | nil => rfl
  | cons a as ih =>
    have ha : p a = false := h a (by simp)
    simp [updateFirst, ha, ih (fun y hy => h y (by simp [hy]))]

/-- With some write set to fail, the credit transaction only ever returns
an error. -/
theorem runCreditTxn_error_of_fault {faults : TxnFaults} {now : Nat}
    {oid e : String} {db : LedgerDb} (hany : faults.any = true) :
    ∃ err, runCreditTxn faults now oid e db = .error err := by
  unfold runCreditTxn
  cases h1 : faults.failUpdate with
  | true => exact ⟨.storage, by simp⟩
  | false =>
    cases hupd : updateFirst (fun o => o.id == oid)
        (completeOrder now e) db.orders with
    | none => exact ⟨.recordNotFound, by simp⟩
    | some pr =>
      obtain ⟨u, orders'⟩ := pr
      cases h2 : faults.failUpsert with
      | true => exact ⟨.storage, by simp⟩
      | false =>
        have h3 : faults.failCreate = true := by
          have := hany
          unfold TxnFaults.any at this
          rw [h1, h2] at this
          simpa using this
        exact ⟨.storage, by simp [h3]⟩

/-- `DbInv` survives a successful credit. -/
theorem DbInv_creditSuccessDb {db : LedgerDb} {P : PaymentOrder}
    {l₁ l₂ : List PaymentOrder} {e : String} (now : Nat)
    (hinv : DbInv db) (hsplit : db.orders = l₁ ++ P :: l₂) :
    DbInv (creditSuccessDb now e P l₁ l₂ db) := by
  constructor
  · have : (creditSuccessDb now e P l₁ l₂ db).orders.map (·.id) =
        db.orders.map (·.id) := by
      simp [creditSuccessDb, hsplit, completeOrder]
    rw [this]
    exact hinv.1
  · intro o ho
    simp only [creditSuccessDb] at ho
    rcases List.mem_append.mp ho with ho' | ho'
    · exact hinv.2 o (by rw [hsplit]; exact List.mem_append_left _ ho')
    · rcases List.mem_cons.mp ho' with rfl | ho''
      · intro _; simp [completeOrder]
      · exact hinv.2 o (by rw [hsplit]; exact List.mem_append_right _ (List.mem_cons_of_mem _ ho''))

/-! ## The claims -/

/-- C7: when no order matches the supplied internal id or a previously
recorded provider event id, `processPaymentSuccess` fails with the
order-not-found error and leaves the order store, coin balances and
transaction ledger unchanged — no order is created. -/
theorem orderNotFound_no_creation :
    ∀ (db : LedgerDb) (faults : TxnFaults) (now : Nat) (oid e pr : String),
      lookupOrder db oid e = Option.none →
      processPaymentSuccess faults now oid e pr db = (.error .orderNotFound, db) := by
  intro db faults now oid e pr h
  simp [processPaymentSuccess, checkPhase, h]

/-- C7 witness: a completion call on the empty store for an order id that
was never created. -/
theorem orderNotFound_no_creation_witness :
    lookupOrder LedgerDb.empty "never-created" "evt0" = Option.none ∧
    processPaymentSuccess TxnFaults.none 0 "never-created" "evt0" "stripe"
        LedgerDb.empty = (.error .orderNotFound, LedgerDb.empty) :=
  ⟨rfl, orderNotFound_no_creation LedgerDb.empty TxnFaults.none 0
    "never-created" "evt0" "stripe" rfl⟩

/-- C9: `createPaymentOrder` always yields a pending order whose coins are
the tier's base plus bonus coins and whose amount is the tier's price in
cents; for tier `coins_300` (300 coins + 50 bonus at 499 cents) the order
has `coins = 350` and `amountCents = 499`. -/
theorem createOrder_postcondition :
    (∀ (newId userId tierKey provider : String) (cfg : PaymentTier)
        (providerOrderId : Option String) (db : LedgerDb),
      (createPaymentOrder newId userId tierKey provider cfg providerOrderId db).1.status
          = "pending" ∧
      (createPaymentOrder newId userId tierKey provider cfg providerOrderId db).1.coins
          = cfg.coins + cfg.bonusCoins ∧
      (createPaymentOrder newId userId tierKey provider cfg providerOrderId db).1.amountCents
          = cfg.priceCents) ∧
    ∃ c, getTierConfig "coins_300" = some c ∧ c.coins = 300 ∧ c.bonusCoins = 50 ∧
      c.priceCents = 499 ∧
      ∀ (newId userId : String) (db : LedgerDb),
        (createPaymentOrder newId userId "coins_300" "stripe" c Option.none db).1.status
            = "pending" ∧
        (createPaymentOrder newId userId "coins_300" "stripe" c Option.none db).1.coins
            = 350 ∧
        (createPaymentOrder newId userId "coins_300" "stripe" c Option.none db).1.amountCents
            = 499 := by
  refine ⟨fun _ _ _ _ _ _ _ => ⟨rfl, rfl, rfl⟩,
    ⟨"coins_300", "Popular Choice", 300, 50, 499, "USD", false⟩, by decide,
    rfl, rfl, rfl, fun _ _ _ => ⟨rfl, by norm_num [createPaymentOrder], rfl⟩⟩

/-- C8: a tier key that resolves neither in the hardcoded whitelist nor in
the CMS catalog is rejected with `InvalidTier` and no order row is written;
when it does resolve, the created order's amount and coins come from the
resolved entry only (the client payload carries no amounts at all). -/
theorem tier_whitelist_enforcement :
    (∀ (cms : String → Option PaymentTier)
        (newOrderId sessionId tierKey userId : String) (db : LedgerDb),
      resolveTier cms tierKey = Option.none →
      createStripeCheckoutSession cms newOrderId sessionId tierKey userId db =
        (.error .invalidTier, db)) ∧
    (∀ (cms : String → Option PaymentTier)
        (newOrderId sessionId tierKey userId : String) (db : LedgerDb)
        (cfg : PaymentTier),
      resolveTier cms tierKey = some cfg →
      (∀ o ∈ db.orders, o.id ≠ newOrderId) →
      ∃ o, (createStripeCheckoutSession cms newOrderId sessionId tierKey userId db).2.orders
          = db.orders ++ [o] ∧
        o.status = "pending" ∧ o.amountCents = cfg.priceCents ∧
        o.coins = cfg.coins + cfg.bonusCoins ∧
        (createStripeCheckoutSession cms newOrderId sessionId tierKey userId db).1 =
          .ok (sessionId, newOrderId)) := by
  constructor
  · intro cms nid sid k u db h
    unfold createStripeCheckoutSession
    rw [h]
  · intro cms nid sid k u db cfg h hfresh
    unfold createStripeCheckoutSession createPaymentOrder attachProviderOrderId
    rw [h]
    have hupd := updateFirst_middle (p := fun o => o.id == nid)
      (f := fun o => { o with providerOrderId := some sid }) db.orders
      ({ id := nid, userId := u, tierKey := k, provider := "stripe",
         providerOrderId := Option.none, providerEventId := Option.none,
         amountCents := cfg.priceCents, coins := cfg.coins + cfg.bonusCoins,
         status := "pending", completedAt := Option.none } : PaymentOrder) []
      (fun y hy => beq_eq_false_iff_ne.mpr (hfresh y hy)) (by simp)
    let o' : PaymentOrder :=
      { id := nid, userId := u, tierKey := k, provider := "stripe",
        providerOrderId := some sid, providerEventId := Option.none,
        amountCents := cfg.priceCents, coins := cfg.coins + cfg.bonusCoins,
        status := "pending", completedAt := Option.none }
    refine ⟨o', ?_, rfl, rfl, rfl, rfl⟩
    simp only [hupd]

/-- C8 witness: the unknown key `mega_deal` is rejected on the empty store
with no CMS catalog, and `coins_300` resolves to a pending 350-coin,
499-cent order. -/
theorem tier_whitelist_enforcement_witness :
    createStripeCheckoutSession (fun _ => Option.none) "ord1" "sess1"
        "mega_deal" "u1" LedgerDb.empty = (.error .invalidTier, LedgerDb.empty) ∧
    ∃ o, (createStripeCheckoutSession (fun _ => Option.none) "ord1" "sess1"
        "coins_300" "u1" LedgerDb.empty).2.orders = LedgerDb.empty.orders ++ [o] ∧
      o.status = "pending" ∧ o.amountCents = 499 ∧ o.coins = 350 ∧
      (createStripeCheckoutSession (fun _ => Option.none) "ord1" "sess1"
        "coins_300" "u1" LedgerDb.empty).1 = .ok ("sess1", "ord1") := by
  constructor
  · exact tier_whitelist_enforcement.1 (fun _ => Option.none) "ord1" "sess1"
      "mega_deal" "u1" LedgerDb.empty (by decide)
  · obtain ⟨o, h1, h2, h3, h4, h5⟩ := tier_whitelist_enforcement.2
      (fun _ => Option.none) "ord1" "sess1" "coins_300" "u1" LedgerDb.empty
      ⟨"coins_300", "Popular Choice", 300, 50, 499, "USD", false⟩ (by decide)
      (by simp [LedgerDb.empty])
    exact ⟨o, h1, h2, by simpa using h3, by simpa using h4, h5⟩

/-- C10: `verifyStripePayment` checks session ownership only when a
`userId` argument is supplied; the deployed verification route passes none,
so for a paid session of any user (whatever the session's metadata user)
the call succeeds with that order's id, credited coins and the owning
user's balance — while a supplied mismatching `userId` is rejected. -/
theorem verify_ownership_check_optional :
    ∀ (retrieve : String → Option StripeSession) (sessionId : String)
      (db : LedgerDb) (session : StripeSession) (order : PaymentOrder),
      retrieve sessionId = some session →
      session.paymentStatus = "paid" →
      db.orders.find? (fun o => o.providerOrderId == some sessionId) = some order →
      (verifyStripeRouteHandler retrieve sessionId db =
        .ok { alreadyProcessed := order.status == "completed"
              orderId := order.id
              creditedCoins := order.coins
              balance := balanceOf db.userCoins order.userId }) ∧
      ∀ uid, session.metadataUserId ≠ some uid →
        verifyStripePayment retrieve sessionId (some uid) db =
          .error .sessionUserMismatch := by
  intro retrieve sid db sess order hret hpaid hfind
  constructor
  · unfold verifyStripeRouteHandler verifyStripePayment
    rw [hret]
    simp [hpaid, hfind]
  · intro uid hne
    unfold verifyStripePayment
    rw [hret]
    simp [hpaid, bne_iff_ne, hne]

/-- C10 witness: the deployed route verifies the paid session `sess9`
(owned by `u9`) with no caller identity and returns order `o9`'s data,
while an explicit mismatching user is rejected. -/
theorem verify_ownership_check_optional_witness :
    verifyStripeRouteHandler retrieve0 "sess9" mixedDb0 =
      .ok { alreadyProcessed := true, orderId := "o9", creditedCoins := 100,
            balance := 100 } ∧
    verifyStripePayment retrieve0 "sess9" (some "someone-else") mixedDb0 =
      .error .sessionUserMismatch := by
  have h := verify_ownership_check_optional retrieve0 "sess9" mixedDb0
    ⟨"paid", some "u9", "pi9"⟩ completedOrder0 (by decide) rfl (by decide)
  exact ⟨by rw [h.1]; decide, h.2 "someone-else" (by decide)⟩

/-- C1 (amended): for a completed order O, every call whose *orderId*
argument is O's id returns `alreadyProcessed = true` with no writes
(whatever event id is supplied and whatever faults are armed); a call
carrying only O's recorded providerEventId can instead complete a
*different* still-pending order named by its orderId argument (see the
counterexample).  Completing a pending order once and then repeating the
same call any number of times leaves exactly one purchase CoinTransaction
and exactly one balance increment of the order's coins. -/
theorem idempotent_completion_amended :
    (∀ (db : LedgerDb) (O : PaymentOrder) (e pr : String) (now : Nat)
        (faults : TxnFaults),
      DbInv db → O ∈ db.orders → O.status = "completed" →
      ∃ M, M.status = "completed" ∧
        processPaymentSuccess faults now O.id e pr db = (.ok ⟨true, M⟩, db)) ∧
    (∀ (db : LedgerDb) (P : PaymentOrder) (e pr : String) (now : Nat),
      DbInv db → P ∈ db.orders → P.status = "pending" →
      (∀ o ∈ db.orders, o.providerEventId ≠ some e) →
      ∃ db1, processPaymentSuccess TxnFaults.none now P.id e pr db =
          (.ok ⟨false, completeOrder now e P⟩, db1) ∧
        purchaseCount db1 P.id = purchaseCount db P.id + 1 ∧
        balanceOf db1.userCoins P.userId = balanceOf db.userCoins P.userId + P.coins ∧
        (∀ now2, processPaymentSuccess TxnFaults.none now2 P.id e pr db1 =
          (.ok ⟨true, completeOrder now e P⟩, db1)) ∧
        (∀ n, processIter TxnFaults.none now P.id e pr n db1 = db1)) := by
  constructor
  · intro db O e pr now faults hinv hO hc
    obtain ⟨M, hM, hMc⟩ := DbInv_lookup_completed e hinv hO hc
    exact ⟨M, hMc, processPaymentSuccess_already faults now pr hM hMc⟩
  · intro db P e pr now hinv hP hpend hfresh
    have hlook : lookupOrder db P.id e = some P :=
      lookup_self_of_fresh hinv hP hfresh
    obtain ⟨l₁, l₂, hsplit, hl₁, heq⟩ :=
      processPaymentSuccess_pending now pr hlook hpend rfl
    refine ⟨creditSuccessDb now e P l₁ l₂ db, heq,
      purchaseCount_creditSuccessDb now, balanceOf_creditSuccessDb now, ?_, ?_⟩
    · intro now2
      have hlook1 := lookupOrder_creditSuccessDb now hsplit hl₁ rfl
      exact processPaymentSuccess_already TxnFaults.none now2 pr hlook1
        (by simp [completeOrder])
    · intro n
      refine processIter_fixed ?_ n
      have hlook1 := lookupOrder_creditSuccessDb now hsplit hl₁ rfl
      rw [processPaymentSuccess_already TxnFaults.none now pr hlook1
        (by simp [completeOrder])]

/-- C1 witness: in the two-order store, a repeat call with the completed
order's own id is a no-op, and completing the pending `coins_300` order
with a fresh event id credits once and is then idempotent. -/
theorem idempotent_completion_amended_witness :
    (∃ M, M.status = "completed" ∧
      processPaymentSuccess TxnFaults.none 11 "o9" "evt-any" "stripe" mixedDb0 =
        (.ok ⟨true, M⟩, mixedDb0)) ∧
    (∃ db1, processPaymentSuccess TxnFaults.none 11 "p1" "evt-new" "stripe" mixedDb0 =
        (.ok ⟨false, completeOrder 11 "evt-new" pendingOrder0⟩, db1) ∧
      purchaseCount db1 "p1" = purchaseCount mixedDb0 "p1" + 1 ∧
      balanceOf db1.userCoins "u1" = balanceOf mixedDb0.userCoins "u1" + 350 ∧
      (∀ now2, processPaymentSuccess TxnFaults.none now2 "p1" "evt-new" "stripe" db1 =
        (.ok ⟨true, completeOrder 11 "evt-new" pendingOrder0⟩, db1)) ∧
      (∀ n, processIter TxnFaults.none 11 "p1" "evt-new" "stripe" n db1 = db1)) := by
  constructor
  · exact idempotent_completion_amended.1 mixedDb0 completedOrder0 "evt-any"
      "stripe" 11 TxnFaults.none (by decide) (by decide) (by decide)
  · exact idempotent_completion_amended.2 mixedDb0 pendingOrder0 "evt-new"
      "stripe" 11 (by decide) (by decide) (by decide) (by decide)

/-- C1 counterexample: in the reachable two-order store, the call carrying
the completed order's recorded providerEventId `evt9` together with the
pending order's id returns `alreadyProcessed = false` and performs writes
(it credits the pending order) — refuting "every call with O's internal id
or with the providerEventId recorded on O returns alreadyProcessed=true
and performs no further writes". -/
theorem idempotent_completion_counterexample :
    DbInv mixedDb0 ∧
    completedOrder0 ∈ mixedDb0.orders ∧
    completedOrder0.status = "completed" ∧
    completedOrder0.providerEventId = some "evt9" ∧
    (processPaymentSuccess TxnFaults.none 7 "p1" "evt9" "stripe" mixedDb0).1 =
      .ok ⟨false, completeOrder 7 "evt9" pendingOrder0⟩ ∧
    (processPaymentSuccess TxnFaults.none 7 "p1" "evt9" "stripe" mixedDb0).2 ≠
      mixedDb0 := by
  decide

/-- C4 (amended): a pending order found by the lookup is completed —
status `completed`, recorded `providerEventId`, `completedAt` set, owner's
balance incremented by its coins (the row created at that amount if
absent), one purchase CoinTransaction inserted, `alreadyProcessed = false`
returned — *provided the supplied orderId argument is that order's
internal id*; when the order is found only by its previously recorded
providerEventId and no order carries the supplied orderId, the
transactional update targets the supplied orderId, fails, and the whole
operation errors with all state unchanged. -/
theorem completion_postcondition_amended :
    (∀ (db : LedgerDb) (P : PaymentOrder) (oid e pr : String) (now : Nat),
      lookupOrder db oid e = some P → P.status = "pending" → P.id = oid →
      ∃ db1, processPaymentSuccess TxnFaults.none now oid e pr db =
          (.ok ⟨false, completeOrder now e P⟩, db1) ∧
        (completeOrder now e P).status = "completed" ∧
        (completeOrder now e P).providerEventId = some e ∧
        (completeOrder now e P).completedAt = some now ∧
        completeOrder now e P ∈ db1.orders ∧
        balanceOf db1.userCoins P.userId = balanceOf db.userCoins P.userId + P.coins ∧
        purchaseCount db1 P.id = purchaseCount db P.id + 1) ∧
    (∀ (db : LedgerDb) (P : PaymentOrder) (oid e pr : String) (now : Nat)
        (faults : TxnFaults),
      lookupOrder db oid e = some P → P.status = "pending" →
      (∀ o ∈ db.orders, o.id ≠ oid) →
      ∃ err, processPaymentSuccess faults now oid e pr db = (.error err, db)) := by
  constructor
  · intro db P oid e pr now hlook hpend hid
    obtain ⟨l₁, l₂, hsplit, hl₁, heq⟩ :=
      processPaymentSuccess_pending now pr hlook hpend hid
    refine ⟨creditSuccessDb now e P l₁ l₂ db, heq, rfl, rfl, rfl, ?_,
      balanceOf_creditSuccessDb now, purchaseCount_creditSuccessDb now⟩
    simp [creditSuccessDb]
  · intro db P oid e pr now faults hlook hpend hnone
    have hproceed : checkPhase db oid e = .proceed := by
      unfold checkPhase
      rw [hlook]
      dsimp only
      rw [if_neg (by simp [hpend])]
    have herr : ∃ err, runCreditTxn faults now oid e db = .error err := by
      unfold runCreditTxn
      cases h1 : faults.failUpdate with
      | true => exact ⟨.storage, by simp⟩
      | false =>
        rw [updateFirst_none (fun y hy => beq_eq_false_iff_ne.mpr (hnone y hy))]
        exact ⟨.recordNotFound, by simp⟩
    obtain ⟨err, herr⟩ := herr
    refine ⟨err, ?_⟩
    unfold processPaymentSuccess
    rw [hproceed, herr]

/-- C4 witness: completing the pending `coins_300` order by its own id,
with the balance row absent beforehand. -/
theorem completion_postcondition_amended_witness :
    (∃ db1, processPaymentSuccess TxnFaults.none 5 "p1" "evt1" "stripe" pendingDb0 =
        (.ok ⟨false, completeOrder 5 "evt1" pendingOrder0⟩, db1) ∧
      (completeOrder 5 "evt1" pendingOrder0).status = "completed" ∧
      (completeOrder 5 "evt1" pendingOrder0).providerEventId = some "evt1" ∧
      (completeOrder 5 "evt1" pendingOrder0).completedAt = some 5 ∧
      completeOrder 5 "evt1" pendingOrder0 ∈ db1.orders ∧
      balanceOf db1.userCoins "u1" = balanceOf pendingDb0.userCoins "u1" + 350 ∧
      purchaseCount db1 "p1" = purchaseCount pendingDb0 "p1" + 1) ∧
    (∃ err, processPaymentSuccess TxnFaults.none 5 "no-such-id" "evt1" "stripe"
        pendingEvtDb0 = (.error err, pendingEvtDb0)) := by
  constructor
  · exact completion_postcondition_amended.1 pendingDb0 pendingOrder0 "p1"
      "evt1" "stripe" 5 (by decide) (by decide) (by decide)
  · exact completion_postcondition_amended.2 pendingEvtDb0 pendingEvtOrder0
      "no-such-id" "evt1" "stripe" 5 TxnFaults.none (by decide) (by decide)
      (by decide)

/-- C4 counterexample: a pending order carrying recorded providerEventId
`evt1` is found by the lookup under a webhook-retry call whose orderId is
not its internal id; the claim says the operation completes it, but the
code's transactional update targets the supplied orderId and the call
fails with the store unchanged — the order stays pending. -/
theorem completion_postcondition_counterexample :
    lookupOrder pendingEvtDb0 "retry-claims-this-id" "evt1" = some pendingEvtOrder0 ∧
    pendingEvtOrder0.status = "pending" ∧
    pendingEvtOrder0.id ≠ "retry-claims-this-id" ∧
    processPaymentSuccess TxnFaults.none 7 "retry-claims-this-id" "evt1" "stripe"
      pendingEvtDb0 = (.error .recordNotFound, pendingEvtDb0) := by
  decide

/-- C2: the three writes of the credit path live in one atomic
transaction — if any of them faults, the whole call errors and the store
(hence the pending order) is untouched — and along every store reachable
through the service there is no completed order without its purchase
CoinTransaction and no purchase CoinTransaction without its completed
order. -/
theorem atomic_credit :
    (∀ (faults : TxnFaults) (now : Nat) (oid e pr : String) (db : LedgerDb)
        (P : PaymentOrder),
      faults.any = true → lookupOrder db oid e = some P →
      P.status ≠ "completed" →
      ∃ err, processPaymentSuccess faults now oid e pr db = (.error err, db)) ∧
    (∀ db, Reachable db → LedgerInv db) := by
  constructor
  · intro faults now oid e pr db P hany hlook hnc
    have hproceed : checkPhase db oid e = .proceed := by
      unfold checkPhase
      rw [hlook]
      dsimp only
      rw [if_neg (by simp [beq_iff_eq, hnc])]
    obtain ⟨err, herr⟩ := @runCreditTxn_error_of_fault faults now oid e db hany
    refine ⟨err, ?_⟩
    unfold processPaymentSuccess
    rw [hproceed, herr]
  · exact fun db hr => reachable_ledgerInv hr

/-- C2 witness: a fault on the balance upsert rolls the whole call back on
the pending store, and the store reached by creating and completing that
order satisfies the ledger invariant. -/
theorem atomic_credit_witness :
    (∃ err, processPaymentSuccess ⟨false, true, false⟩ 7 "p1" "evt1" "stripe"
        pendingDb0 = (.error err, pendingDb0)) ∧
    LedgerInv (processPaymentSuccess TxnFaults.none 7 "p1" "evt1" "stripe"
      (createPaymentOrder "p1" "u1" "coins_300" "stripe"
        ⟨"coins_300", "Popular Choice", 300, 50, 499, "USD", false⟩
        Option.none LedgerDb.empty).2).2 := by
  constructor
  · exact atomic_credit.1 ⟨false, true, false⟩ 7 "p1" "evt1" "stripe"
      pendingDb0 pendingOrder0 (by decide) (by decide) (by decide)
  · exact atomic_credit.2 _
      (Reachable.process _ _ _ _ _ _
        (Reachable.create LedgerDb.empty _ _ _ _ _ _ Reachable.init
          (by simp [LedgerDb.empty])))

/-- C5 (amended): once the signature verification material is in place and
`constructEvent` succeeds, both webhook routes answer `{received: true}`
for *every* outcome of the completion call — `OrderNotFound`, business
errors and transient storage failures alike, the inner `try/catch`
swallowing them all; the counterexample shows the acknowledgment on the
`TransientError` path that the claim forbids. -/
theorem webhook_ack_policy_amended :
    (∀ (event : StripeEvent) (faults : TxnFaults) (now : Nat) (db : LedgerDb),
      (stripeWebhookRoute true true (some event) faults now db).1 = .received) ∧
    (∀ (event : PaypalEvent) (faults : TxnFaults) (now : Nat) (db : LedgerDb),
      (paypalWebhookRoute true true true event faults now db).1 = .received) := by
  constructor
  · intro ev faults now db
    unfold stripeWebhookRoute
    repeat' split
    all_goals simp_all
  · intro ev faults now db
    unfold paypalWebhookRoute
    repeat' split
    all_goals simp_all

/-- C5 counterexample: a storage fault on the first transactional write
makes `processPaymentSuccess` fail with the transient storage error, yet
the Stripe webhook route still acknowledges with `{received: true}` —
refuting "it never returns received:true when the completion operation
fails with a TransientError". -/
theorem webhook_ack_policy_counterexample :
    processPaymentSuccess ⟨true, false, false⟩ 7 "p1" "evt1" "stripe" pendingDb0 =
      (.error .storage, pendingDb0) ∧
    stripeWebhookRoute true true
        (some ⟨"checkout.session.completed", "evt1", "paid", some "p1"⟩)
        ⟨true, false, false⟩ 7 pendingDb0 = (.received, pendingDb0) := by
  decide

/-- C6 (amended): the Stripe route of `webhooks.ts` hands the body it
received to `constructEvent` unmodified; the PayPal route and the
`part_003` Stripe variant run the parsed body back through
`JSON.stringify`, and for some valid JSON bodies (insignificant
whitespace) the bytes presented to the verifier differ from the raw
bytes. -/
theorem raw_bytes_verification_amended :
    (∀ rawBody : String, stripeMainVerifyInput rawBody = rawBody) ∧
    (∃ rawBody : String, (jsonParse rawBody).isSome ∧
      paypalVerifyEventBytes rawBody ≠ some rawBody) ∧
    (∃ rawBody : String, (jsonParse rawBody).isSome ∧
      part003StripeVerifyInput rawBody ≠ some rawBody) := by
  refine ⟨fun _ => rfl,
    ⟨"\x7b\"a\": 1\x7d", by decide, by decide⟩,
    ⟨"\x7b\"a\": 1\x7d", by decide, by decide⟩⟩

theorem schedStep_false_eq (now : Nat) (s : SysState) :
    schedStep now s false =
      ⟨(threadStep now s.db s.t1).1, (threadStep now s.db s.t1).2, s.t2⟩ := rfl

theorem schedStep_true_eq (now : Nat) (s : SysState) :
    schedStep now s true =
      ⟨(threadStep now s.db s.t2).1, s.t1, (threadStep now s.db s.t2).2⟩ := rfl

/-- C3 (amended): the code has no per-order serialization — no row lock,
no unique constraint on `providerEventId` in the schema, and the service's
`catch` rethrows instead of mapping conflicts to `alreadyProcessed` — so
only schedules in which one invocation commits before the other checks
behave well: there the first call credits once, the second observes
`completed` and returns `alreadyProcessed = true`, and the final balance is
exactly one credit.  Under the racing schedule both invocations pass the
not-yet-completed check and both credit (see the counterexample). -/
theorem concurrent_duplicate_delivery_amended :
    ∀ (db : LedgerDb) (P : PaymentOrder) (e pr : String) (now : Nat),
      lookupOrder db P.id e = some P → P.status = "pending" →
      (let s := runSched now [false, false, true, true]
          ⟨db, ThreadState.start P.id e pr, ThreadState.start P.id e pr⟩
       s.t1.result = some (.ok ⟨false, completeOrder now e P⟩) ∧
       s.t2.result = some (.ok ⟨true, completeOrder now e P⟩) ∧
       balanceOf s.db.userCoins P.userId = balanceOf db.userCoins P.userId + P.coins ∧
       purchaseCount s.db P.id = purchaseCount db P.id + 1) := by
  intro db P e pr now hlook hpend
  obtain ⟨l₁, l₂, hsplit, hl₁, hrun⟩ := runCreditTxn_pending_success now hlook rfl
  have hcp : checkPhase db P.id e = .proceed := by
    unfold checkPhase
    rw [hlook]
    dsimp only
    rw [if_neg (by simp [hpend])]
  have hlook1 := lookupOrder_creditSuccessDb now hsplit hl₁ rfl
  have hcp1 : checkPhase (creditSuccessDb now e P l₁ l₂ db) P.id e =
      .already (completeOrder now e P) := by
    unfold checkPhase
    rw [hlook1]
    dsimp only
    rw [if_pos (by simp [completeOrder])]
  have t1check : threadStep now db (ThreadState.start P.id e pr) =
      (db, ⟨P.id, e, pr, some Decision.proceed, Option.none⟩) := by
    unfold threadStep ThreadState.start
    dsimp only
    rw [hcp]
  have t1commit : threadStep now db
      (⟨P.id, e, pr, some Decision.proceed, Option.none⟩ : ThreadState) =
      (creditSuccessDb now e P l₁ l₂ db,
       ⟨P.id, e, pr, some Decision.proceed,
        some (.ok ⟨false, completeOrder now e P⟩)⟩) := by
    unfold threadStep
    dsimp only
    rw [hrun]
  have t2check : threadStep now (creditSuccessDb now e P l₁ l₂ db)
      (ThreadState.start P.id e pr) =
      (creditSuccessDb now e P l₁ l₂ db,
       ⟨P.id, e, pr, some (.already (completeOrder now e P)), Option.none⟩) := by
    unfold threadStep ThreadState.start
    dsimp only
    rw [hcp1]
  have t2finish : threadStep now (creditSuccessDb now e P l₁ l₂ db)
      (⟨P.id, e, pr, some (.already (completeOrder now e P)),
        Option.none⟩ : ThreadState) =
      (creditSuccessDb now e P l₁ l₂ db,
       ⟨P.id, e, pr, some (.already (completeOrder now e P)),
        some (.ok ⟨true, completeOrder now e P⟩)⟩) := rfl
  have sched1 : schedStep now
      ⟨db, ThreadState.start P.id e pr, ThreadState.start P.id e pr⟩ false =
      ⟨db, ⟨P.id, e, pr, some Decision.proceed, Option.none⟩,
       ThreadState.start P.id e pr⟩ := by
    rw [schedStep_false_eq, t1check]
  have sched2 : schedStep now
      ⟨db, ⟨P.id, e, pr, some Decision.proceed, Option.none⟩,
       ThreadState.start P.id e pr⟩ false =
      ⟨creditSuccessDb now e P l₁ l₂ db,
       ⟨P.id, e, pr, some Decision.proceed,
        some (.ok ⟨false, completeOrder now e P⟩)⟩,
       ThreadState.start P.id e pr⟩ := by
    rw [schedStep_false_eq, t1commit]
  have sched3 : schedStep now
      ⟨creditSuccessDb now e P l₁ l₂ db,
       ⟨P.id, e, pr, some Decision.proceed,
        some (.ok ⟨false, completeOrder now e P⟩)⟩,
       ThreadState.start P.id e pr⟩ true =
      ⟨creditSuccessDb now e P l₁ l₂ db,
       ⟨P.id, e, pr, some Decision.proceed,
        some (.ok ⟨false, completeOrder now e P⟩)⟩,
       ⟨P.id, e, pr, some (.already (completeOrder now e P)), Option.none⟩⟩ := by
    rw [schedStep_true_eq, t2check]
  have sched4 : schedStep now
      ⟨creditSuccessDb now e P l₁ l₂ db,
       ⟨P.id, e, pr, some Decision.proceed,
        some (.ok ⟨false, completeOrder now e P⟩)⟩,
       ⟨P.id, e, pr, some (.already (completeOrder now e P)), Option.none⟩⟩ true =
      ⟨creditSuccessDb now e P l₁ l₂ db,
       ⟨P.id, e, pr, some Decision.proceed,
        some (.ok ⟨false, completeOrder now e P⟩)⟩,
       ⟨P.id, e, pr, some (.already (completeOrder now e P)),
        some (.ok ⟨true, completeOrder now e P⟩)⟩⟩ := by
    rw [schedStep_true_eq, t2finish]
  have hall : runSched now [false, false, true, true]
      ⟨db, ThreadState.start P.id e pr, ThreadState.start P.id e pr⟩ =
      ⟨creditSuccessDb now e P l₁ l₂ db,
       ⟨P.id, e, pr, some Decision.proceed,
        some (.ok ⟨false, completeOrder now e P⟩)⟩,
       ⟨P.id, e, pr, some (.already (completeOrder now e P)),
        some (.ok ⟨true, completeOrder now e P⟩)⟩⟩ := by
    unfold runSched
    simp only [List.foldl]
    rw [sched1, sched2, sched3, sched4]
  refine ⟨?_, ?_, ?_, ?_⟩ <;> rw [hall]
  · exact balanceOf_creditSuccessDb now
  · exact purchaseCount_creditSuccessDb now

/-- C3 witness: the serialized schedule on the pending-order store — the
second webhook retry sees `alreadyProcessed = true` and the balance is one
credit of 350. -/
theorem concurrent_duplicate_delivery_amended_witness :
    (let s := runSched 7 [false, false, true, true]
        ⟨pendingDb0, ThreadState.start "p1" "evt1" "stripe",
         ThreadState.start "p1" "evt1" "stripe"⟩
     s.t1.result = some (.ok ⟨false, completeOrder 7 "evt1" pendingOrder0⟩) ∧
     s.t2.result = some (.ok ⟨true, completeOrder 7 "evt1" pendingOrder0⟩) ∧
     balanceOf s.db.userCoins "u1" = balanceOf pendingDb0.userCoins "u1" + 350 ∧
     purchaseCount s.db "p1" = purchaseCount pendingDb0 "p1" + 1) := by
  have h := concurrent_duplicate_delivery_amended pendingDb0 pendingOrder0
    "evt1" "stripe" 7 (by decide) (by decide)
  exact h

/-- C3 counterexample: under the racing schedule — both invocations run
their not-yet-completed check before either commits — both pass the check,
both credit, and the final balance is 700 = two credits of the order's 350
coins, with two purchase transactions; this refutes "two concurrent
invocations never both pass the not-yet-completed check and both credit —
the final balance equals exactly one credit of order.coins". -/
theorem concurrent_duplicate_delivery_counterexample :
    (let s := runSched 7 [false, true, false, true]
        ⟨pendingDb0, ThreadState.start "p1" "evt1" "stripe",
         ThreadState.start "p1" "evt1" "stripe"⟩
     s.t1.result = some (.ok ⟨false, completeOrder 7 "evt1" pendingOrder0⟩) ∧
     s.t2.result = some (.ok ⟨false,
       completeOrder 7 "evt1" (completeOrder 7 "evt1" pendingOrder0)⟩) ∧
     balanceOf s.db.userCoins "u1" = 700 ∧
     purchaseCount s.db "p1" = 2 ∧
     pendingOrder0.coins = 350 ∧ (700 : Int) ≠ 350) := by
  decide

/-- C6 counterexample: the valid JSON body `{"a": 1}` (with a space) is
re-encoded to `{"a":1}` by both the PayPal route's
`JSON.stringify(request.body)` and the `part_003` variant's `bodyString`,
so the verifier does not operate on the exact raw bytes received. -/
theorem raw_bytes_verification_counterexample :
    (jsonParse "\x7b\"a\": 1\x7d").isSome ∧
    paypalVerifyEventBytes "\x7b\"a\": 1\x7d" = some "\x7b\"a\":1\x7d" ∧
    part003StripeVerifyInput "\x7b\"a\": 1\x7d" = some "\x7b\"a\":1\x7d" ∧
    ("\x7b\"a\":1\x7d" : String) ≠ "\x7b\"a\": 1\x7d" := by
  decide

end Dramini
